import Mathlib

/-!
# lab3.c — the OpenSHMEM N-body template driver

A shallow embedding of `src/lab3.c` and the properties of it that the
specification states.

Conventions of the embedding.

* C `int` values are `Int`; `atoi` wraps its result to 32 bits.
* A byte string is a `List Char` (all text of the program is ASCII).
* The program's observable behaviour is a trace of `Event`s, in program
  order: every call of the OpenSHMEM runtime, of the timer macros of
  `wctimer.h`, of `write` and of `exit` appends one event.
* Library calls whose result the program only consumes are inputs:
  `shmem_n_pes`, `shmem_my_pe`, the successive results of `getopt`, and the
  text that `printf` produces for a `double`.
* `vsprintf(buf, format, ap)` is represented by the text it stores in `buf`;
  its return value is the length of that text. The embedding covers calls
  whose text fits the 1024-byte buffers, as every call made by `main` does.
-/

namespace Lab3

/-! ## Constants and types -/

/-- The `#define N 10000` of the source: default body count. -/
def N : Int := 10000

/-- The `#define NSTEPS 10` of the source: default number of timesteps. -/
def NSTEPS : Int := 10

/-- The file descriptor `STDOUT_FILENO` of `unistd.h`. -/
def STDOUT_FILENO : Nat := 1

/-- The `struct body_s` of the source; `α` stands for C `double`. -/
structure body_t (α : Type) where
  x : α
  y : α
  z : α
  dx : α
  dy : α
  dz : α
  mass : α

/-- The `struct global_s` of the source. -/
structure global_t where
  rank : Int
  nproc : Int
  n : Int
  nsteps : Int
deriving DecidableEq

/-- Observable actions of one process, in the order the source performs them. -/
inductive Event where
  | shmem_init
  | wc_tsc_calibrate
  | write (fd : Nat) (bytes : List Char)
  | wc_init_timer
  | wc_start_timer
  | wc_stop_timer
  | shmem_barrier_all
  | shmem_finalize
  | exit (status : Int)
deriving DecidableEq

/-- The state of one process: the global `g` and the events performed so far. -/
structure State where
  g : global_t
  trace : List Event
deriving DecidableEq

/-- Append one event to the trace; `g` is passed through. -/
def emit (s : State) (e : Event) : State :=
  { s with trace := s.trace ++ [e] }

/-! ## Formatting -/

/-- The text `printf` produces for `%d`. -/
def fmt_d (v : Int) : List Char :=
  if v < 0 then '-' :: Nat.toDigits 10 v.natAbs else Nat.toDigits 10 v.natAbs

/-- The text `printf` produces for `%4d`: `%d` right-justified in a field of
    at least four characters. -/
def fmt_4d (v : Int) : List Char :=
  List.replicate (4 - (fmt_d v).length) ' ' ++ fmt_d v

/-- The usage message of `main`. -/
def usage_msg : List Char :=
  "usage: lab3 [-n #bodies] [-t #timesteps]\n".toList

/-- The banner of `main`, format
    `"beginning N-body simulation of %d bodies with %d processes over %d timesteps\n"`. -/
def banner_msg (n nproc nsteps : Int) : List Char :=
  "beginning N-body simulation of ".toList ++ fmt_d n ++ " bodies with ".toList
    ++ fmt_d nproc ++ " processes over ".toList ++ fmt_d nsteps ++ " timesteps\n".toList

/-- The greeting of `main`, format `"hello from thread %d of %d\n"`. -/
def hello_msg (rank nproc : Int) : List Char :=
  "hello from thread ".toList ++ fmt_d rank ++ " of ".toList ++ fmt_d nproc ++ "\n".toList

/-- The timer report of `main`, format `"execution time: %7.4f ms\n"`; `elapsed`
    is the text of the `%7.4f` conversion of the timer reading. -/
def time_msg (elapsed : List Char) : List Char :=
  "execution time: ".toList ++ elapsed ++ " ms\n".toList

/-! ## dist -/

/-- The function `dist` of the source, `sqrt((dx*dx) + (dy*dy) + (dz*dz))`, over
    any number type; `sqrt` is the square root of `math.h`. -/
def dist {α : Type} [Add α] [Mul α] (sqrt : α → α) (dx dy dz : α) : α :=
  sqrt ((dx * dx) + (dy * dy) + (dz * dz))

/-! ## Printing wrappers -/

/-- The function `dbg_printf_real` of the source. `buf` is the text `vsprintf`
    produced from the format and its arguments, `ret` its length; `obuf` is the
    result of `sprintf(obuf, "%4d: %s", g.rank, buf)` and `len` its length. The
    function writes `len` bytes of `obuf` and returns `ret`. -/
def dbg_printf_real (s : State) (buf : List Char) : Int × State :=
  let ret : Int := buf.length
  let obuf : List Char := fmt_4d s.g.rank ++ ": ".toList ++ buf
  let len : Nat := obuf.length
  (ret, emit s (Event.write STDOUT_FILENO (obuf.take len)))

/-- The function `eprintf` of the source. `buf` is the text `vsprintf` produces
    from the format and its arguments, `ret` its length. -/
def eprintf (s : State) (buf : List Char) : Int × State :=
  if s.g.rank = 0 then
    let ret : Int := buf.length
    (ret, emit s (Event.write STDOUT_FILENO (buf.take ret.toNat)))
  else
    (0, s)

/-- The text of `print_body`, format
    `"x: %7.3f y: %7.3f z: %7.3f dx: %7.3f dy: %7.3f dz: %7.3f\n"`; `f` is the
    `%7.3f` conversion of `printf`. -/
def body_msg {α : Type} (f : α → List Char) (b : body_t α) : List Char :=
  "x: ".toList ++ f b.x ++ " y: ".toList ++ f b.y ++ " z: ".toList ++ f b.z
    ++ " dx: ".toList ++ f b.dx ++ " dy: ".toList ++ f b.dy ++ " dz: ".toList ++ f b.dz
    ++ "\n".toList

/-- The function `print_body` of the source: one `dprintf` call, which the
    source defines as `dbg_printf_real`. -/
def print_body {α : Type} (f : α → List Char) (s : State) (b : body_t α) : State :=
  (dbg_printf_real s (body_msg f b)).2

/-! ## Option parsing -/

/-- The `isspace` of `ctype.h` in the C locale. -/
def isspace (c : Char) : Bool :=
  c = ' ' || c = '\t' || c = '\n' || c = '\x0b' || c = '\x0c' || c = '\r'

/-- Wrap an integer to a 32-bit two's complement `int`. -/
def wrap32 (v : Int) : Int :=
  (v + 2147483648) % 4294967296 - 2147483648

/-- Saturate an integer to a 64-bit `long`, as `strtol` does on overflow. -/
def clamp64 (v : Int) : Int :=
  if v < -9223372036854775808 then -9223372036854775808
  else if 9223372036854775807 < v then 9223372036854775807
  else v

/-- The value of a run of decimal digits. -/
def digits_value (ds : List Char) : Nat :=
  ds.foldl (fun acc c => 10 * acc + (c.toNat - 48)) 0

/-- The `atoi` of `stdlib.h`, which is `(int) strtol(s, NULL, 10)`: leading white
    space is skipped, an optional sign is read, then the longest run of decimal
    digits; text without digits gives 0. -/
def atoi (s : List Char) : Int :=
  let s1 := s.dropWhile isspace
  let mag (r : List Char) : Int := (digits_value (r.takeWhile Char.isDigit) : Nat)
  let v : Int :=
    match s1 with
    | '-' :: r => - mag r
    | '+' :: r => mag r
    | r => mag r
  wrap32 (clamp64 v)

/-- What one call `getopt(argc, argv, "hn:t:")` returns before the end of the
    options: option `h`, option `n` or `t` with its argument in `optarg`, or `?`
    for an unknown option character or a missing argument. -/
inductive GetoptRet where
  | opt_h
  | opt_n (optarg : List Char)
  | opt_t (optarg : List Char)
  | unknown
deriving DecidableEq

/-- The result of the option loop of `main`: the process left through `exit`
    with a status, or the loop ended and `main` goes on. -/
inductive Parse where
  | exited (s : State) (status : Int)
  | parsed (s : State)
deriving DecidableEq

/-- The option loop of `main`,
    `while ((c = getopt(argc, argv, "hn:t:")) != -1) switch (c) ...`, over the
    results of the successive `getopt` calls; the empty list is `getopt`
    returning -1. Case `h` calls `eprintf`, `shmem_finalize` and `exit(0)`; the
    `switch` has no case for `?`, which changes nothing. The variable `c` is a
    `char`, taken as signed (as on x86), so that it holds every result of
    `getopt` unchanged and the -1 ends the loop. -/
def parse_options : State → List GetoptRet → Parse
  | s, [] => Parse.parsed s
  | s, GetoptRet.opt_h :: _ =>
    let s1 := (eprintf s usage_msg).2
    let s2 := emit s1 Event.shmem_finalize
    Parse.exited (emit s2 (Event.exit 0)) 0
  | s, GetoptRet.opt_n optarg :: rest =>
    parse_options { s with g := { s.g with n := atoi optarg } } rest
  | s, GetoptRet.opt_t optarg :: rest =>
    parse_options { s with g := { s.g with nsteps := atoi optarg } } rest
  | s, GetoptRet.unknown :: rest => parse_options s rest

/-! ## A POSIX `getopt` for the option string `"hn:t:"` -/

/-- Scan the option characters of one argument (the text after its `-`).
    `next` is the following argument, if any. Returns the results of the
    `getopt` calls on this argument and whether `next` was used as `optarg`. -/
def getopt_arg (next : Option (List Char)) : List Char → List GetoptRet × Bool
  | [] => ([], false)
  | c :: cs =>
    if c = 'h' then
      let r := getopt_arg next cs
      (GetoptRet.opt_h :: r.1, r.2)
    else if c = 'n' ∨ c = 't' then
      let mk : List Char → GetoptRet :=
        if c = 'n' then GetoptRet.opt_n else GetoptRet.opt_t
      match cs, next with
      | [], some a => ([mk a], true)
      | [], none => ([GetoptRet.unknown], false)
      | _ :: _, _ => ([mk cs], false)
    else
      let r := getopt_arg next cs
      (GetoptRet.unknown :: r.1, r.2)

/-- The results of the successive `getopt` calls on the arguments after
    `argv[0]`, up to the call that returns -1, by the POSIX rules: scanning
    stops at `--`, at `-` and at the first argument that does not start with
    `-`. `skip` tells that the head was the `optarg` of the previous option. -/
def getopt_scan : Bool → List (List Char) → List GetoptRet
  | _, [] => []
  | true, _ :: rest => getopt_scan false rest
  | false, arg :: rest =>
    match arg with
    | '-' :: c :: cs =>
      if c = '-' ∧ cs = [] then []
      else
        let r := getopt_arg rest.head? (c :: cs)
        r.1 ++ getopt_scan r.2 rest
    | _ => []

/-- The `getopt` results for the command line `words`, each word one argument. -/
def getopt_results (words : List String) : List GetoptRet :=
  getopt_scan false (words.map String.toList)

/-! ## main -/

/-- What `main` takes from its environment. -/
structure Env where
  /-- The value of `shmem_n_pes()`. -/
  n_pes : Int
  /-- The value of `shmem_my_pe()`. -/
  my_pe : Int
  /-- The results of the successive `getopt` calls before the one returning -1. -/
  opts : List GetoptRet
  /-- The `%7.4f` text of `WC_READ_TIMER_MSEC(ttimer)`. -/
  elapsed : List Char

/-- The part of `main` before the option loop: `memset`, `shmem_init`, the two
    runtime queries, `wc_tsc_calibrate` and the defaults. -/
def main_startup (env : Env) : State :=
  let s : State := { g := { rank := 0, nproc := 0, n := 0, nsteps := 0 }, trace := [] }
  let s := emit s Event.shmem_init
  let s := { s with g := { s.g with nproc := env.n_pes } }
  let s := { s with g := { s.g with rank := env.my_pe } }
  let s := emit s Event.wc_tsc_calibrate
  let s := { s with g := { s.g with n := N } }
  { s with g := { s.g with nsteps := NSTEPS } }

/-- The loop `for (int i=0; i<g.nproc; i++) { if (i == g.rank) dprintf(...);
    shmem_barrier_all(); }` of `main`, started at `i`; `fuel` bounds the number
    of iterations (see `hello_loop_fuel`). -/
def hello_loop : Nat → Int → State → State
  | 0, _, s => s
  | fuel + 1, i, s =>
    if i < s.g.nproc then
      let s1 :=
        if i = s.g.rank then (dbg_printf_real s (hello_msg s.g.rank s.g.nproc)).2 else s
      hello_loop fuel (i + 1) (emit s1 Event.shmem_barrier_all)
    else s

/-- The part of `main` after the option loop: the banner, the timer start, the
    greeting loop, the last barrier, the timer report and `shmem_finalize`. -/
def main_run (elapsed : List Char) (s : State) : State :=
  let s := (eprintf s (banner_msg s.g.n s.g.nproc s.g.nsteps)).2
  let s := emit s Event.wc_init_timer
  let s := emit s Event.wc_start_timer
  let s := hello_loop s.g.nproc.toNat 0 s
  let s := emit s Event.shmem_barrier_all
  let s := emit s Event.wc_stop_timer
  let s := (eprintf s (time_msg elapsed)).2
  emit s Event.shmem_finalize

/-- The function `main` of the source: the final state of the process and its
    exit status, the argument of `exit` or the 0 of reaching the end of `main`. -/
def main (env : Env) : State × Int :=
  match parse_options (main_startup env) env.opts with
  | Parse.exited s status => (s, status)
  | Parse.parsed s => (main_run env.elapsed s, 0)

/-! ## Observations on traces -/

/-- The number of `shmem_barrier_all` calls in a trace. -/
def barrier_calls (tr : List Event) : Nat :=
  tr.count Event.shmem_barrier_all

/-- The byte strings written to standard output, in order. -/
def written : List Event → List (List Char)
  | [] => []
  | Event.write _ bytes :: tr => bytes :: written tr
  | _ :: tr => written tr

/-- The line the greeting loop writes: `hello_msg` behind the rank tag of
    `dbg_printf_real`. -/
def hello_line (rank nproc : Int) : List Char :=
  fmt_4d rank ++ ": ".toList ++ hello_msg rank nproc

/-- The events `eprintf` adds in a process of rank `rank` for the text `buf`. -/
def eprintf_events (rank : Int) (buf : List Char) : List Event :=
  if rank = 0 then [Event.write STDOUT_FILENO buf] else []

/-- The events of `k` iterations of the greeting loop from index `i` on. -/
def greeting_events (g : global_t) : Int → Nat → List Event
  | _, 0 => []
  | i, k + 1 =>
    (if i = g.rank then [Event.write STDOUT_FILENO (hello_line g.rank g.nproc)] else [])
      ++ Event.shmem_barrier_all :: greeting_events g (i + 1) k

/-- The arguments of the `-n` options among `getopt` results, in order. -/
def n_args : List GetoptRet → List (List Char)
  | [] => []
  | GetoptRet.opt_n a :: rest => a :: n_args rest
  | _ :: rest => n_args rest

/-- The arguments of the `-t` options among `getopt` results, in order. -/
def t_args : List GetoptRet → List (List Char)
  | [] => []
  | GetoptRet.opt_t a :: rest => a :: t_args rest
  | _ :: rest => t_args rest

/-- The state held by a result of the option loop. -/
def Parse.state : Parse → State
  | Parse.exited s _ => s
  | Parse.parsed s => s

/-- The configuration the option loop leaves when it does not meet `-h`. -/
def parsed_config (env : Env) : global_t :=
  { rank := env.my_pe, nproc := env.n_pes,
    n := (((n_args env.opts).getLast?).map atoi).getD N,
    nsteps := (((t_args env.opts).getLast?).map atoi).getD NSTEPS }

/-- The whole trace of a run whose option loop does not meet `-h`. -/
def run_trace (env : Env) : List Event :=
  [Event.shmem_init, Event.wc_tsc_calibrate]
    ++ (eprintf_events env.my_pe
          (banner_msg (parsed_config env).n env.n_pes (parsed_config env).nsteps)
    ++ ([Event.wc_init_timer, Event.wc_start_timer]
    ++ (greeting_events (parsed_config env) 0 env.n_pes.toNat
    ++ ([Event.shmem_barrier_all, Event.wc_stop_timer]
    ++ (eprintf_events env.my_pe (time_msg env.elapsed)
    ++ [Event.shmem_finalize])))))

/-! ## Concrete runs -/

/-- Process 1 of 4 on the arguments `-n 5 -t 3 -n 7`. -/
def run_n5_t3_n7 : Env :=
  { n_pes := 4, my_pe := 1, opts := getopt_results ["-n", "5", "-t", "3", "-n", "7"],
    elapsed := "0.0421".toList }

/-- Process `my_pe` of `n_pes` on the command line `words`. -/
def run_of (n_pes my_pe : Int) (words : List String) : Env :=
  { n_pes := n_pes, my_pe := my_pe, opts := getopt_results words, elapsed := "0.0421".toList }


/-! ## Basic facts about the printing wrappers and the greeting loop -/

@[simp] theorem emit_g (s : State) (e : Event) : (emit s e).g = s.g := rfl

@[simp] theorem emit_trace (s : State) (e : Event) : (emit s e).trace = s.trace ++ [e] := rfl

theorem eprintf_eq (s : State) (buf : List Char) :
    eprintf s buf =
      (if s.g.rank = 0 then (buf.length : Int) else 0,
        { s with trace := s.trace ++ eprintf_events s.g.rank buf }) := by
  unfold eprintf eprintf_events
  by_cases h : s.g.rank = 0
  · simp [h, emit]
  · simp [h]

@[simp] theorem eprintf_g (s : State) (buf : List Char) : (eprintf s buf).2.g = s.g := by
  rw [eprintf_eq]

@[simp] theorem eprintf_trace (s : State) (buf : List Char) :
    (eprintf s buf).2.trace = s.trace ++ eprintf_events s.g.rank buf := by
  rw [eprintf_eq]

theorem dbg_printf_real_eq (s : State) (buf : List Char) :
    dbg_printf_real s buf =
      ((buf.length : Int),
        { s with trace := s.trace ++
            [Event.write STDOUT_FILENO (fmt_4d s.g.rank ++ ": ".toList ++ buf)] }) := by
  simp [dbg_printf_real, emit]

@[simp] theorem dbg_printf_real_g (s : State) (buf : List Char) :
    (dbg_printf_real s buf).2.g = s.g := by
  rw [dbg_printf_real_eq]

@[simp] theorem dbg_printf_real_trace (s : State) (buf : List Char) :
    (dbg_printf_real s buf).2.trace =
      s.trace ++ [Event.write STDOUT_FILENO (fmt_4d s.g.rank ++ ": ".toList ++ buf)] := by
  rw [dbg_printf_real_eq]

/-- With the fuel `main` gives it, the greeting loop runs until its condition
    `i < g.nproc` fails: it leaves `g` alone and adds `greeting_events`. -/
theorem hello_loop_eq : ∀ (k : Nat) (i : Int) (s : State), (s.g.nproc - i).toNat = k →
    hello_loop k i s = { s with trace := s.trace ++ greeting_events s.g i k }
  | 0, i, s, _ => by simp [hello_loop, greeting_events]
  | k + 1, i, s, h => by
    have hi : i < s.g.nproc := by omega
    have hk : (s.g.nproc - (i + 1)).toNat = k := by omega
    unfold hello_loop
    rw [if_pos hi]
    by_cases hr : i = s.g.rank
    · have := hello_loop_eq k (i + 1)
        (emit (dbg_printf_real s (hello_msg s.g.rank s.g.nproc)).2 Event.shmem_barrier_all)
        (by simpa using hk)
      simp only [hr, if_true] at this ⊢
      rw [this]
      simp [greeting_events, hello_line]
    · have := hello_loop_eq k (i + 1) (emit s Event.shmem_barrier_all) (by simpa using hk)
      simp only [hr, if_false]
      rw [this]
      simp [greeting_events, hr]

/-- More fuel than the loop needs changes nothing. -/
theorem hello_loop_fuel : ∀ (k extra : Nat) (i : Int) (s : State), (s.g.nproc - i).toNat = k →
    hello_loop (k + extra) i s = hello_loop k i s
  | 0, 0, _, _, _ => rfl
  | 0, extra + 1, i, s, h => by
    have hi : ¬ i < s.g.nproc := by omega
    simp [hello_loop, hi]
  | k + 1, extra, i, s, h => by
    have hi : i < s.g.nproc := by omega
    have hk : (s.g.nproc - (i + 1)).toNat = k := by omega
    have e : k + 1 + extra = (k + extra) + 1 := by omega
    rw [e]
    unfold hello_loop
    rw [if_pos hi, if_pos hi]
    apply hello_loop_fuel k extra
    by_cases hr : i = s.g.rank <;> simpa [hr] using hk

/-! ## The greeting loop and the option loop -/

theorem greeting_events_barriers (g : global_t) : ∀ (k : Nat) (i : Int),
    barrier_calls (greeting_events g i k) = k
  | 0, _ => rfl
  | k + 1, i => by
    have ih := greeting_events_barriers g k (i + 1)
    unfold barrier_calls at ih ⊢
    by_cases hr : i = g.rank
    · subst hr
      simp [greeting_events, ih]
    · simp [greeting_events, hr, ih]

theorem greeting_events_outside (g : global_t) : ∀ (k : Nat) (i : Int),
    (g.rank < i ∨ i + k ≤ g.rank) →
    greeting_events g i k = List.replicate k Event.shmem_barrier_all
  | 0, _, _ => rfl
  | k + 1, i, h => by
    have hr : i ≠ g.rank := by omega
    have ih := greeting_events_outside g k (i + 1) (by omega)
    simp [greeting_events, hr, ih, List.replicate_succ]

theorem greeting_events_inside (g : global_t) : ∀ (k : Nat) (i : Int),
    i ≤ g.rank → g.rank < i + k →
    greeting_events g i k =
      List.replicate (g.rank - i).toNat Event.shmem_barrier_all
        ++ Event.write STDOUT_FILENO (hello_line g.rank g.nproc)
        :: List.replicate (k - (g.rank - i).toNat) Event.shmem_barrier_all
  | 0, i, h1, h2 => by omega
  | k + 1, i, h1, h2 => by
    by_cases hr : i = g.rank
    · have ih := greeting_events_outside g k (i + 1) (by omega)
      subst hr
      simp [greeting_events, ih, List.replicate_succ]
    · have ih := greeting_events_inside g k (i + 1) (by omega) (by omega)
      have e1 : (g.rank - i).toNat = (g.rank - (i + 1)).toNat + 1 := by omega
      have e2 : k + 1 - ((g.rank - (i + 1)).toNat + 1) = k - (g.rank - (i + 1)).toNat := by omega
      simp [greeting_events, hr, ih, e1, e2, List.replicate_succ]

theorem main_run_eq (elapsed : List Char) (s : State) :
    main_run elapsed s =
      { s with trace := s.trace
          ++ (eprintf_events s.g.rank (banner_msg s.g.n s.g.nproc s.g.nsteps)
          ++ ([Event.wc_init_timer, Event.wc_start_timer]
          ++ (greeting_events s.g 0 s.g.nproc.toNat
          ++ ([Event.shmem_barrier_all, Event.wc_stop_timer]
          ++ (eprintf_events s.g.rank (time_msg elapsed)
          ++ [Event.shmem_finalize]))))) } := by
  unfold main_run
  simp only [eprintf_eq, emit]
  rw [hello_loop_eq _ _ _ (by simp)]
  simp

theorem getLast?_cons_getD {α : Type} (a : α) (d : Int) (l : List α) (f : α → Int) :
    (((a :: l).getLast?).map f).getD d = ((l.getLast?).map f).getD (f a) := by
  cases l with
  | nil => simp
  | cons b l =>
    rw [List.getLast?_cons_cons]
    cases h : (b :: l).getLast? with
    | none => simp at h
    | some c => simp

/-- The option loop when `-h` is not met: it ends, the trace, `rank` and `nproc`
    are as before, and `n`, `nsteps` come from the last `-n` and `-t`. -/
theorem parse_options_no_h : ∀ (opts : List GetoptRet) (s : State), GetoptRet.opt_h ∉ opts →
    parse_options s opts = Parse.parsed
      { g := { rank := s.g.rank, nproc := s.g.nproc,
               n := (((n_args opts).getLast?).map atoi).getD s.g.n,
               nsteps := (((t_args opts).getLast?).map atoi).getD s.g.nsteps },
        trace := s.trace }
  | [], s, _ => by simp [parse_options, n_args, t_args]
  | GetoptRet.opt_h :: rest, s, h => by simp at h
  | GetoptRet.opt_n a :: rest, s, h => by
    have ih := parse_options_no_h rest { s with g := { s.g with n := atoi a } }
      (fun hm => h (List.mem_cons_of_mem _ hm))
    simp only [parse_options, ih, n_args, t_args, getLast?_cons_getD]
  | GetoptRet.opt_t a :: rest, s, h => by
    have ih := parse_options_no_h rest { s with g := { s.g with nsteps := atoi a } }
      (fun hm => h (List.mem_cons_of_mem _ hm))
    simp only [parse_options, ih, n_args, t_args, getLast?_cons_getD]
  | GetoptRet.unknown :: rest, s, h => by
    have ih := parse_options_no_h rest s (fun hm => h (List.mem_cons_of_mem _ hm))
    simp only [parse_options, ih, n_args, t_args]

/-- The option loop when `-h` is met: the process leaves through `exit(0)`,
    having added only the events of `eprintf`, `shmem_finalize` and `exit`. -/
theorem parse_options_h : ∀ (opts : List GetoptRet) (s : State), GetoptRet.opt_h ∈ opts →
    ∃ g : global_t, g.rank = s.g.rank ∧ g.nproc = s.g.nproc ∧
      parse_options s opts = Parse.exited
        { g := g,
          trace := s.trace ++ (eprintf_events s.g.rank usage_msg
            ++ [Event.shmem_finalize, Event.exit 0]) } 0
  | [], s, h => by simp at h
  | GetoptRet.opt_h :: rest, s, _ => ⟨s.g, rfl, rfl, by simp [parse_options, emit, eprintf_eq]⟩
  | GetoptRet.opt_n a :: rest, s, h => by
    have hm : GetoptRet.opt_h ∈ rest := by simpa using h
    obtain ⟨g, h1, h2, h3⟩ := parse_options_h rest { s with g := { s.g with n := atoi a } } hm
    exact ⟨g, h1, h2, by simpa [parse_options] using h3⟩
  | GetoptRet.opt_t a :: rest, s, h => by
    have hm : GetoptRet.opt_h ∈ rest := by simpa using h
    obtain ⟨g, h1, h2, h3⟩ := parse_options_h rest { s with g := { s.g with nsteps := atoi a } } hm
    exact ⟨g, h1, h2, by simpa [parse_options] using h3⟩
  | GetoptRet.unknown :: rest, s, h => by
    have hm : GetoptRet.opt_h ∈ rest := by simpa using h
    obtain ⟨g, h1, h2, h3⟩ := parse_options_h rest s hm
    exact ⟨g, h1, h2, by simpa [parse_options] using h3⟩

/-! ## The trace of `main` -/

theorem main_startup_eq (env : Env) :
    main_startup env =
      { g := { rank := env.my_pe, nproc := env.n_pes, n := N, nsteps := NSTEPS },
        trace := [Event.shmem_init, Event.wc_tsc_calibrate] } := by
  simp [main_startup, emit]

/-- A run that does not meet `-h`: final state and exit status. -/
theorem main_no_h (env : Env) (h : GetoptRet.opt_h ∉ env.opts) :
    main env = ({ g := parsed_config env, trace := run_trace env }, 0) := by
  unfold main
  rw [parse_options_no_h env.opts _ h, main_startup_eq]
  simp only [main_run_eq]
  simp [parsed_config, run_trace]

/-- A run that meets `-h`: trace and exit status. -/
theorem main_h (env : Env) (h : GetoptRet.opt_h ∈ env.opts) :
    (main env).1.trace =
        [Event.shmem_init, Event.wc_tsc_calibrate]
          ++ (eprintf_events env.my_pe usage_msg ++ [Event.shmem_finalize, Event.exit 0])
      ∧ (main env).2 = 0 := by
  obtain ⟨g, _, _, h3⟩ := parse_options_h env.opts (main_startup env) h
  unfold main
  rw [h3, main_startup_eq]
  simp

@[simp] theorem written_append (a b : List Event) : written (a ++ b) = written a ++ written b := by
  induction a with
  | nil => rfl
  | cons e a ih => cases e <;> simp [written, ih]

@[simp] theorem written_replicate_barrier (k : Nat) :
    written (List.replicate k Event.shmem_barrier_all) = [] := by
  induction k with
  | zero => rfl
  | succ k ih => simp [List.replicate_succ, written, ih]

theorem written_eprintf_events (r : Int) (buf : List Char) :
    written (eprintf_events r buf) = if r = 0 then [buf] else [] := by
  unfold eprintf_events
  by_cases h : r = 0 <;> simp [h, written]

theorem barrier_calls_append (a b : List Event) :
    barrier_calls (a ++ b) = barrier_calls a + barrier_calls b := by
  simp [barrier_calls]

@[simp] theorem barrier_calls_eprintf_events (r : Int) (buf : List Char) :
    barrier_calls (eprintf_events r buf) = 0 := by
  unfold eprintf_events barrier_calls
  by_cases h : r = 0 <;> simp [h]

theorem barrier_calls_run_trace (env : Env) :
    barrier_calls (run_trace env) = env.n_pes.toNat + 1 := by
  unfold run_trace
  simp only [barrier_calls_append, barrier_calls_eprintf_events, greeting_events_barriers]
  simp [barrier_calls]

/-! ## First characters of the texts -/

theorem digitChar_isDigit : ∀ d : Nat, d < 10 → (Nat.digitChar d).isDigit = true := by
  decide

theorem toDigitsCore_head : ∀ (fuel n : Nat) (ds : List Char), n < fuel →
    ∃ c t, Nat.toDigitsCore 10 fuel n ds = c :: t ∧ c.isDigit = true
  | 0, n, ds, h => by omega
  | fuel + 1, n, ds, h => by
    unfold Nat.toDigitsCore
    by_cases hz : n / 10 = 0
    · exact ⟨Nat.digitChar (n % 10), ds, by simp [hz],
        digitChar_isDigit _ (Nat.mod_lt _ (by decide))⟩
    · have hlt : n / 10 < fuel := by omega
      obtain ⟨c, t, h1, h2⟩ := toDigitsCore_head fuel (n / 10) (Nat.digitChar (n % 10) :: ds) hlt
      exact ⟨c, t, by simp [hz, h1], h2⟩

/-- The text of `%4d` starts with a blank, a minus sign or a digit. -/
theorem fmt_4d_head (v : Int) :
    ∃ c t, fmt_4d v = c :: t ∧ (c = ' ' ∨ c = '-' ∨ c.isDigit = true) := by
  have hd : ∃ c t, fmt_d v = c :: t ∧ (c = '-' ∨ c.isDigit = true) := by
    unfold fmt_d
    by_cases hv : v < 0
    · exact ⟨'-', Nat.toDigits 10 v.natAbs, by simp [hv], Or.inl rfl⟩
    · obtain ⟨c, t, h1, h2⟩ := toDigitsCore_head (v.natAbs + 1) v.natAbs [] (by omega)
      exact ⟨c, t, by simp [hv, Nat.toDigits, h1], Or.inr h2⟩
  obtain ⟨c, t, h1, h2⟩ := hd
  unfold fmt_4d
  rw [h1]
  cases hk : 4 - (c :: t).length with
  | zero => exact ⟨c, t, by simp, Or.inr h2⟩
  | succ k => exact ⟨' ', List.replicate k ' ' ++ c :: t, by simp [List.replicate_succ], Or.inl rfl⟩

theorem hello_line_head (r p : Int) :
    ∃ c t, hello_line r p = c :: t ∧ (c = ' ' ∨ c = '-' ∨ c.isDigit = true) := by
  obtain ⟨c, t, h1, h2⟩ := fmt_4d_head r
  exact ⟨c, t ++ (": ".toList ++ hello_msg r p), by simp [hello_line, h1], h2⟩

theorem banner_msg_head (n p k : Int) : ∃ t, banner_msg n p k = 'b' :: t := ⟨_, rfl⟩

theorem time_msg_head (e : List Char) : ∃ t, time_msg e = 'e' :: t := ⟨_, rfl⟩

theorem hello_line_ne_banner_msg (r p n q k : Int) : banner_msg n q k ≠ hello_line r p := by
  obtain ⟨c, t, h1, h2⟩ := hello_line_head r p
  obtain ⟨u, h3⟩ := banner_msg_head n q k
  rw [h1, h3]
  intro h
  have hc : c = 'b' := by injection h with h _; exact h.symm
  subst hc
  revert h2
  decide

theorem hello_line_ne_time_msg (r p : Int) (e : List Char) : time_msg e ≠ hello_line r p := by
  obtain ⟨c, t, h1, h2⟩ := hello_line_head r p
  obtain ⟨u, h3⟩ := time_msg_head e
  rw [h1, h3]
  intro h
  have hc : c = 'e' := by injection h with h _; exact h.symm
  subst hc
  revert h2
  decide

/-! ## `atoi` on decimal text -/

theorem digitChar_props : ∀ d : Nat, d < 10 →
    (Nat.digitChar d).toNat - 48 = d ∧ isspace (Nat.digitChar d) = false ∧
      Nat.digitChar d ≠ '-' ∧ Nat.digitChar d ≠ '+' := by
  decide

theorem toDigitsCore_acc : ∀ (fuel n : Nat) (ds : List Char),
    Nat.toDigitsCore 10 fuel n ds = Nat.toDigitsCore 10 fuel n [] ++ ds
  | 0, _, _ => by simp [Nat.toDigitsCore]
  | fuel + 1, n, ds => by
    unfold Nat.toDigitsCore
    by_cases hz : n / 10 = 0
    · simp [hz]
    · simp only [hz, if_false]
      rw [toDigitsCore_acc fuel (n / 10) (Nat.digitChar (n % 10) :: ds),
        toDigitsCore_acc fuel (n / 10) [Nat.digitChar (n % 10)]]
      simp

theorem toDigitsCore_all_digits : ∀ (fuel n : Nat),
    ∀ c ∈ Nat.toDigitsCore 10 fuel n [], c.isDigit = true
  | 0, _ => by simp [Nat.toDigitsCore]
  | fuel + 1, n => by
    have hd := digitChar_isDigit (n % 10) (Nat.mod_lt _ (by decide))
    unfold Nat.toDigitsCore
    by_cases hz : n / 10 = 0
    · simpa [hz] using hd
    · simp only [hz, if_false]
      rw [toDigitsCore_acc]
      intro c hc
      rcases List.mem_append.mp hc with hc | hc
      · exact toDigitsCore_all_digits fuel (n / 10) c hc
      · simp at hc
        rw [hc]
        exact hd

theorem digits_value_append (l : List Char) (c : Char) :
    digits_value (l ++ [c]) = 10 * digits_value l + (c.toNat - 48) := by
  simp [digits_value, List.foldl_append]

theorem digits_value_toDigitsCore : ∀ (fuel n : Nat), n < fuel →
    digits_value (Nat.toDigitsCore 10 fuel n []) = n
  | 0, n, h => by omega
  | fuel + 1, n, h => by
    have hd := (digitChar_props (n % 10) (Nat.mod_lt _ (by decide))).1
    unfold Nat.toDigitsCore
    by_cases hz : n / 10 = 0
    · simp only [hz, if_true]
      simp only [digits_value, List.foldl_cons, List.foldl_nil]
      omega
    · simp only [hz, if_false]
      rw [toDigitsCore_acc, digits_value_append,
        digits_value_toDigitsCore fuel (n / 10) (by omega)]
      omega

theorem takeWhile_all {α : Type} (p : α → Bool) : ∀ l : List α, (∀ c ∈ l, p c = true) →
    l.takeWhile p = l
  | [], _ => rfl
  | a :: l, h => by
    have ha : p a = true := h a (List.mem_cons_self a l)
    rw [List.takeWhile_cons, ha]
    simp only [if_true]
    rw [takeWhile_all p l (fun c hc => h c (List.mem_cons_of_mem a hc))]

theorem digits_value_toDigits (n : Nat) :
    digits_value ((Nat.toDigits 10 n).takeWhile Char.isDigit) = n := by
  unfold Nat.toDigits
  rw [takeWhile_all _ _ (toDigitsCore_all_digits (n + 1) n)]
  exact digits_value_toDigitsCore (n + 1) n (by omega)

/-- The head of the decimal text of a natural number is a digit character. -/
theorem toDigits_cons (n : Nat) :
    ∃ d t, d < 10 ∧ Nat.toDigits 10 n = Nat.digitChar d :: t := by
  have key : ∀ (fuel n : Nat) (ds : List Char), n < fuel →
      ∃ d t, d < 10 ∧ Nat.toDigitsCore 10 fuel n ds = Nat.digitChar d :: t := by
    intro fuel
    induction fuel with
    | zero => intro n ds h; omega
    | succ fuel ih =>
      intro n ds h
      unfold Nat.toDigitsCore
      by_cases hz : n / 10 = 0
      · exact ⟨n % 10, ds, Nat.mod_lt _ (by decide), by simp [hz]⟩
      · obtain ⟨d, t, h1, h2⟩ := ih (n / 10) (Nat.digitChar (n % 10) :: ds) (by omega)
        exact ⟨d, t, h1, by simp [hz, h2]⟩
  exact key (n + 1) n [] (by omega)

/-- The `atoi` of the decimal text of a 32-bit `int` is that `int`. -/
theorem atoi_fmt_d (v : Int) (h1 : -2147483648 ≤ v) (h2 : v ≤ 2147483647) :
    atoi (fmt_d v) = v := by
  obtain ⟨d, t, hd, ht⟩ := toDigits_cons v.natAbs
  obtain ⟨_, hsp, hm, hp⟩ := digitChar_props d hd
  have hval := digits_value_toDigits v.natAbs
  unfold atoi fmt_d
  by_cases hv : v < 0
  · have e : (if v < 0 then '-' :: Nat.toDigits 10 v.natAbs else Nat.toDigits 10 v.natAbs)
        = '-' :: Nat.toDigits 10 v.natAbs := by simp [hv]
    rw [e]
    have hs : List.dropWhile isspace ('-' :: Nat.toDigits 10 v.natAbs)
        = '-' :: Nat.toDigits 10 v.natAbs := by
      rw [List.dropWhile_cons]
      simp [isspace]
    simp only [hs, hval]
    unfold clamp64 wrap32
    have : ((v.natAbs : Nat) : Int) = -v := by omega
    rw [this]
    split_ifs <;> omega
  · have e : (if v < 0 then '-' :: Nat.toDigits 10 v.natAbs else Nat.toDigits 10 v.natAbs)
        = Nat.toDigits 10 v.natAbs := by simp [hv]
    rw [e]
    have hs : List.dropWhile isspace (Nat.toDigits 10 v.natAbs) = Nat.toDigits 10 v.natAbs := by
      rw [ht, List.dropWhile_cons, hsp]
      simp
    rw [hs]
    have hmatch : (match Nat.toDigits 10 v.natAbs with
        | '-' :: r => - ((digits_value (r.takeWhile Char.isDigit) : Nat) : Int)
        | '+' :: r => ((digits_value (r.takeWhile Char.isDigit) : Nat) : Int)
        | r => ((digits_value (r.takeWhile Char.isDigit) : Nat) : Int))
        = ((digits_value ((Nat.toDigits 10 v.natAbs).takeWhile Char.isDigit) : Nat) : Int) := by
      rw [ht]
      split
      · next heq => injection heq with heq _; exact absurd heq hm
      · next heq => injection heq with heq _; exact absurd heq hp
      · rfl
    simp only [hmatch, hval]
    unfold clamp64 wrap32
    have : ((v.natAbs : Nat) : Int) = v := by omega
    rw [this]
    split_ifs <;> omega

/-! ## The claims -/

theorem parse_options_nsteps_frame : ∀ (opts : List GetoptRet) (s : State), t_args opts = [] →
    (parse_options s opts).state.g.nsteps = s.g.nsteps
  | [], s, _ => rfl
  | GetoptRet.opt_h :: rest, s, _ => by simp [parse_options, Parse.state]
  | GetoptRet.opt_n a :: rest, s, h => by
    have ih := parse_options_nsteps_frame rest { s with g := { s.g with n := atoi a } }
      (by simpa [t_args] using h)
    simpa [parse_options] using ih
  | GetoptRet.opt_t a :: rest, s, h => by simp [t_args] at h
  | GetoptRet.unknown :: rest, s, h => by
    have ih := parse_options_nsteps_frame rest s (by simpa [t_args] using h)
    simpa [parse_options] using ih

theorem parse_options_n_frame : ∀ (opts : List GetoptRet) (s : State), n_args opts = [] →
    (parse_options s opts).state.g.n = s.g.n
  | [], s, _ => rfl
  | GetoptRet.opt_h :: rest, s, _ => by simp [parse_options, Parse.state]
  | GetoptRet.opt_n a :: rest, s, h => by simp [n_args] at h
  | GetoptRet.opt_t a :: rest, s, h => by
    have ih := parse_options_n_frame rest { s with g := { s.g with nsteps := atoi a } }
      (by simpa [n_args] using h)
    simpa [parse_options] using ih
  | GetoptRet.unknown :: rest, s, h => by
    have ih := parse_options_n_frame rest s (by simpa [n_args] using h)
    simpa [parse_options] using ih

/-- C1. When the option loop of `main` does not meet `-h`, it ends, and the
    configuration it leaves has `g.n` equal to `atoi` of the argument of the last
    `-n` option, or 10000 without a `-n`, and `g.nsteps` equal to `atoi` of the
    argument of the last `-t` option, or 10 without a `-t`. Options other than
    `-t` never change `g.nsteps`, and options other than `-n` never change `g.n`.
    The integer value `atoi` gives to the decimal text of an `int` is that `int`. -/
theorem C1_parsed_configuration (env : Env) (h : GetoptRet.opt_h ∉ env.opts) :
    (∃ s : State, parse_options (main_startup env) env.opts = Parse.parsed s ∧
      s.g.n = (match (n_args env.opts).getLast? with
        | some optarg => atoi optarg
        | none => 10000) ∧
      s.g.nsteps = (match (t_args env.opts).getLast? with
        | some optarg => atoi optarg
        | none => 10)) ∧
    (∀ (s : State) (opts : List GetoptRet), t_args opts = [] →
      (parse_options s opts).state.g.nsteps = s.g.nsteps) ∧
    (∀ (s : State) (opts : List GetoptRet), n_args opts = [] →
      (parse_options s opts).state.g.n = s.g.n) ∧
    (∀ v : Int, -2147483648 ≤ v → v ≤ 2147483647 → atoi (fmt_d v) = v) := by
  refine ⟨⟨_, parse_options_no_h env.opts _ h, ?_, ?_⟩,
    fun s opts => parse_options_nsteps_frame opts s,
    fun s opts => parse_options_n_frame opts s, atoi_fmt_d⟩
  · rw [main_startup_eq]
    cases (n_args env.opts).getLast? <;> simp [N]
  · rw [main_startup_eq]
    cases (t_args env.opts).getLast? <;> simp [NSTEPS]

/-- C1 on the arguments `-n 5 -t 3 -n 7`: the loop ends with `g.n = 7` and
    `g.nsteps = 3`. -/
theorem C1_parsed_configuration_witness :
    GetoptRet.opt_h ∉ run_n5_t3_n7.opts ∧
    ∃ s : State, parse_options (main_startup run_n5_t3_n7) run_n5_t3_n7.opts = Parse.parsed s ∧
      s.g.n = 7 ∧ s.g.nsteps = 3 := by
  obtain ⟨⟨s, h1, h2, h3⟩, _⟩ := C1_parsed_configuration run_n5_t3_n7 (by decide)
  exact ⟨by decide, s, h1, h2.trans (by decide), h3.trans (by decide)⟩

/-- C2, as stated, fails in a process of rank 1: on the argument `-h` the option
    loop meets `-h`, and the process writes nothing, so it does not print the
    usage message. -/
theorem C2_usage_counterexample :
    GetoptRet.opt_h ∈ (run_of 2 1 ["-h"]).opts ∧
    usage_msg ∉ written (main (run_of 2 1 ["-h"])).1.trace ∧
    written (main (run_of 2 1 ["-h"])).1.trace = [] := by
  decide

/-- C2, amended. When the option loop meets `-h`, the process performs exactly
    `shmem_init`, `wc_tsc_calibrate`, the write of the usage message if its rank
    is 0 (nothing otherwise), `shmem_finalize` and `exit(0)`: status 0, no barrier
    call, no banner, no timer started, whatever options precede the `-h`. -/
theorem C2_usage_exit (env : Env) (h : GetoptRet.opt_h ∈ env.opts) :
    (main env).1.trace =
        [Event.shmem_init, Event.wc_tsc_calibrate]
          ++ (if env.my_pe = 0 then [Event.write STDOUT_FILENO usage_msg] else [])
          ++ [Event.shmem_finalize, Event.exit 0] ∧
    (main env).2 = 0 ∧
    written (main env).1.trace = (if env.my_pe = 0 then [usage_msg] else []) ∧
    barrier_calls (main env).1.trace = 0 ∧
    (∀ n nproc nsteps : Int, banner_msg n nproc nsteps ∉ written (main env).1.trace) ∧
    Event.wc_init_timer ∉ (main env).1.trace ∧
    Event.wc_start_timer ∉ (main env).1.trace := by
  obtain ⟨ht, hs⟩ := main_h env h
  have hb : ∀ n nproc nsteps : Int, banner_msg n nproc nsteps ≠ usage_msg := by
    intro n nproc nsteps
    obtain ⟨t, e⟩ := banner_msg_head n nproc nsteps
    rw [e]
    intro hc
    have hu : usage_msg = 'u' :: usage_msg.tail := rfl
    rw [hu] at hc
    injection hc with hc _
    revert hc
    decide
  rw [ht]
  refine ⟨?_, hs, ?_, ?_, ?_, ?_, ?_⟩
  · simp [eprintf_events]
  · by_cases h0 : env.my_pe = 0 <;> simp [eprintf_events, h0, written]
  · by_cases h0 : env.my_pe = 0 <;> simp [eprintf_events, h0, barrier_calls]
  · intro n nproc nsteps
    by_cases h0 : env.my_pe = 0 <;> simp [eprintf_events, h0, written, hb]
  · by_cases h0 : env.my_pe = 0 <;> simp [eprintf_events, h0]
  · by_cases h0 : env.my_pe = 0 <;> simp [eprintf_events, h0]

/-- C2, amended, on the arguments `-n 5 -h` in the process of rank 0: the usage
    message is the only text written and no barrier is executed. -/
theorem C2_usage_exit_witness :
    GetoptRet.opt_h ∈ (run_of 2 0 ["-n", "5", "-h"]).opts ∧
    (main (run_of 2 0 ["-n", "5", "-h"])).2 = 0 ∧
    written (main (run_of 2 0 ["-n", "5", "-h"])).1.trace = [usage_msg] ∧
    barrier_calls (main (run_of 2 0 ["-n", "5", "-h"])).1.trace = 0 := by
  obtain ⟨_, h2, h3, h4, _⟩ := C2_usage_exit (run_of 2 0 ["-n", "5", "-h"]) (by decide)
  exact ⟨by decide, h2, h3, h4⟩

/-- C3, as stated, fails: with one process, the run on `-t 1` parses one
    timestep more than the run on `-t 0`, and both make two barrier calls. -/
theorem C3_barriers_counterexample :
    (main (run_of 1 0 ["-t", "1"])).1.g.nsteps = (main (run_of 1 0 ["-t", "0"])).1.g.nsteps + 1 ∧
    barrier_calls (main (run_of 1 0 ["-t", "0"])).1.trace = 2 ∧
    barrier_calls (main (run_of 1 0 ["-t", "1"])).1.trace = 2 ∧
    barrier_calls (main (run_of 1 0 ["-t", "1"])).1.trace
      ≠ barrier_calls (main (run_of 1 0 ["-t", "0"])).1.trace + 2 := by
  decide

/-- C3, amended. `main` has no timestep loop: two runs that do not meet `-h`
    and have the same process count make the same number of barrier calls, one
    per process plus one, also when one run is configured for one timestep more
    than the other. -/
theorem C3_barriers_independent_of_nsteps (env env1 : Env)
    (h : GetoptRet.opt_h ∉ env.opts) (h1 : GetoptRet.opt_h ∉ env1.opts)
    (hp : env1.n_pes = env.n_pes)
    (_hk : (main env1).1.g.nsteps = (main env).1.g.nsteps + 1) :
    barrier_calls (main env1).1.trace = barrier_calls (main env).1.trace ∧
    barrier_calls (main env).1.trace = env.n_pes.toNat + 1 := by
  rw [main_no_h env h, main_no_h env1 h1]
  simp [barrier_calls_run_trace, hp]

/-- C3, amended, on the runs `-t 4` and `-t 5` with three processes. -/
theorem C3_barriers_independent_of_nsteps_witness :
    barrier_calls (main (run_of 3 2 ["-t", "5"])).1.trace
      = barrier_calls (main (run_of 3 2 ["-t", "4"])).1.trace ∧
    barrier_calls (main (run_of 3 2 ["-t", "4"])).1.trace = (3 : Int).toNat + 1 :=
  C3_barriers_independent_of_nsteps (run_of 3 2 ["-t", "4"]) (run_of 3 2 ["-t", "5"])
    (by decide) (by decide) (by decide) (by decide)

/-- C4, as stated, fails: on the arguments `-n 0`, and on `-t -1`, no `-h` is
    met, the parsed configuration has `n = 0`, respectively `nsteps = -1`, and the
    process of rank 0 prints the banner and makes two barrier calls. -/
theorem C4_fail_fast_counterexample :
    (GetoptRet.opt_h ∉ (run_of 1 0 ["-n", "0"]).opts ∧
      (main (run_of 1 0 ["-n", "0"])).1.g.n = 0 ∧
      banner_msg 0 1 10 ∈ written (main (run_of 1 0 ["-n", "0"])).1.trace ∧
      barrier_calls (main (run_of 1 0 ["-n", "0"])).1.trace = 2) ∧
    (GetoptRet.opt_h ∉ (run_of 1 0 ["-t", "-1"]).opts ∧
      (main (run_of 1 0 ["-t", "-1"])).1.g.nsteps = -1 ∧
      banner_msg 10000 1 (-1) ∈ written (main (run_of 1 0 ["-t", "-1"])).1.trace ∧
      barrier_calls (main (run_of 1 0 ["-t", "-1"])).1.trace = 2) := by
  decide

/-- C4, amended. `main` does not check the configuration: in every run that
    does not meet `-h`, whatever the parsed `n` and `nsteps`, also `n <= 0` or
    `nsteps < 0`, the process enters the driver section: it calls `eprintf` with
    the banner, which the process of rank 0 writes, starts the timer, makes one
    barrier call per process plus one, and ends with status 0. -/
theorem C4_no_validation (env : Env) (h : GetoptRet.opt_h ∉ env.opts) :
    (main env).2 = 0 ∧
    (main env).1.trace =
      [Event.shmem_init, Event.wc_tsc_calibrate]
        ++ (if env.my_pe = 0 then
              [Event.write STDOUT_FILENO
                (banner_msg (main env).1.g.n env.n_pes (main env).1.g.nsteps)]
            else [])
        ++ [Event.wc_init_timer, Event.wc_start_timer]
        ++ greeting_events (main env).1.g 0 env.n_pes.toNat
        ++ [Event.shmem_barrier_all, Event.wc_stop_timer]
        ++ (if env.my_pe = 0 then [Event.write STDOUT_FILENO (time_msg env.elapsed)] else [])
        ++ [Event.shmem_finalize] ∧
    (env.my_pe = 0 →
      banner_msg (main env).1.g.n env.n_pes (main env).1.g.nsteps
        ∈ written (main env).1.trace) ∧
    barrier_calls (main env).1.trace = env.n_pes.toNat + 1 ∧
    Event.wc_start_timer ∈ (main env).1.trace := by
  rw [main_no_h env h]
  refine ⟨rfl, ?_, ?_, barrier_calls_run_trace env, ?_⟩
  · simp [run_trace, eprintf_events]
  · intro h0
    simp [run_trace, written_eprintf_events, h0, written]
  · simp [run_trace]

/-- C4, amended, on the arguments `-n -3 -t -2` in the process of rank 0 of 2. -/
theorem C4_no_validation_witness :
    GetoptRet.opt_h ∉ (run_of 2 0 ["-n", "-3", "-t", "-2"]).opts ∧
    (main (run_of 2 0 ["-n", "-3", "-t", "-2"])).1.g.n = -3 ∧
    (main (run_of 2 0 ["-n", "-3", "-t", "-2"])).1.g.nsteps = -2 ∧
    (main (run_of 2 0 ["-n", "-3", "-t", "-2"])).2 = 0 ∧
    barrier_calls (main (run_of 2 0 ["-n", "-3", "-t", "-2"])).1.trace = (2 : Int).toNat + 1 := by
  obtain ⟨h1, _, _, h4, _⟩ := C4_no_validation (run_of 2 0 ["-n", "-3", "-t", "-2"]) (by decide)
  exact ⟨by decide, by decide, by decide, h1, h4⟩

/-- Among `P > 0` processes with distinct ranks in `[0, P)` one has rank 0. -/
theorem exists_rank_zero (P : Nat) (rank : Fin P → Int) (hP : 0 < P)
    (hinj : Function.Injective rank) (hr : ∀ i, 0 ≤ rank i ∧ rank i < P) :
    ∃ i, rank i = 0 := by
  let f : Fin P → Fin P := fun i => ⟨(rank i).toNat, by have := hr i; omega⟩
  have hf : Function.Injective f := by
    intro a b hab
    apply hinj
    have h1 : (rank a).toNat = (rank b).toNat := congrArg Fin.val hab
    have := hr a
    have := hr b
    omega
  obtain ⟨i, hi⟩ := (Finite.injective_iff_surjective.mp hf) ⟨0, hP⟩
  refine ⟨i, ?_⟩
  have h1 : (rank i).toNat = 0 := congrArg Fin.val hi
  have := hr i
  omega

/-- C5. `eprintf` in a process of rank 0 writes the formatted text once, as one
    `write` of that text to standard output, and returns its length; in a
    process of another rank it does nothing and returns 0. Hence among `P > 0`
    processes with distinct ranks in `[0, P)` exactly one, the process of rank 0,
    writes the text, once, and the others write nothing. -/
theorem C5_eprintf_designated (s : State) (buf : List Char) :
    (s.g.rank = 0 →
      eprintf s buf =
        ((buf.length : Int),
          { g := s.g, trace := s.trace ++ [Event.write STDOUT_FILENO buf] })) ∧
    (s.g.rank ≠ 0 → eprintf s buf = (0, s)) ∧
    (∀ (P : Nat) (procs : Fin P → State), 0 < P →
      Function.Injective (fun i => (procs i).g.rank) →
      (∀ i, 0 ≤ (procs i).g.rank ∧ (procs i).g.rank < P) →
      ∃ i, (procs i).g.rank = 0 ∧
        (eprintf (procs i) buf).2.trace
          = (procs i).trace ++ [Event.write STDOUT_FILENO buf] ∧
        ∀ j, j ≠ i → (eprintf (procs j) buf).2 = procs j) := by
  refine ⟨fun h => ?_, fun h => ?_, ?_⟩
  · rw [eprintf_eq]
    simp [h, eprintf_events]
  · rw [eprintf_eq]
    simp [h, eprintf_events]
  · intro P procs hP hinj hr
    obtain ⟨i, hi⟩ := exists_rank_zero P (fun i => (procs i).g.rank) hP hinj hr
    refine ⟨i, hi, by simp [eprintf_events, hi], fun j hj => ?_⟩
    have hne : (procs j).g.rank ≠ 0 := fun h0 => hj (hinj (h0.trans hi.symm))
    rw [eprintf_eq]
    simp [hne, eprintf_events]

/-- C5 on the text `ab`: rank 0 writes it and returns 2, rank 3 returns 0. -/
theorem C5_eprintf_designated_witness :
    eprintf { g := { rank := 0, nproc := 4, n := 10000, nsteps := 10 }, trace := [] } ['a', 'b']
      = (2, { g := { rank := 0, nproc := 4, n := 10000, nsteps := 10 },
              trace := [Event.write STDOUT_FILENO ['a', 'b']] }) ∧
    eprintf { g := { rank := 3, nproc := 4, n := 10000, nsteps := 10 }, trace := [] } ['a', 'b']
      = (0, { g := { rank := 3, nproc := 4, n := 10000, nsteps := 10 }, trace := [] }) :=
  ⟨(C5_eprintf_designated
      { g := { rank := 0, nproc := 4, n := 10000, nsteps := 10 }, trace := [] } ['a', 'b']).1 rfl,
   (C5_eprintf_designated
      { g := { rank := 3, nproc := 4, n := 10000, nsteps := 10 }, trace := [] } ['a', 'b']).2.1
      (by decide)⟩

/-- C6. Over the real numbers `dist` is the Euclidean norm of the coordinate
    differences: it equals `sqrt(dx^2 + dy^2 + dz^2)`, is non-negative, is the
    same for the opposite differences, and is zero exactly when all three
    differences are zero. -/
theorem C6_dist_euclidean (dx dy dz : ℝ) :
    Lab3.dist Real.sqrt dx dy dz = Real.sqrt (dx ^ 2 + dy ^ 2 + dz ^ 2) ∧
    0 ≤ Lab3.dist Real.sqrt dx dy dz ∧
    Lab3.dist Real.sqrt (-dx) (-dy) (-dz) = Lab3.dist Real.sqrt dx dy dz ∧
    (Lab3.dist Real.sqrt dx dy dz = 0 ↔ dx = 0 ∧ dy = 0 ∧ dz = 0) := by
  have hnn : 0 ≤ dx * dx + dy * dy + dz * dz := by
    nlinarith [mul_self_nonneg dx, mul_self_nonneg dy, mul_self_nonneg dz]
  refine ⟨?_, Real.sqrt_nonneg _, ?_, ?_⟩
  · simp only [Lab3.dist, pow_two]
  · simp only [Lab3.dist, neg_mul_neg]
  · unfold Lab3.dist
    rw [Real.sqrt_eq_zero hnn]
    constructor
    · intro h
      have hx : dx * dx = 0 := by nlinarith [mul_self_nonneg dx, mul_self_nonneg dy, mul_self_nonneg dz]
      have hy : dy * dy = 0 := by nlinarith [mul_self_nonneg dx, mul_self_nonneg dy, mul_self_nonneg dz]
      have hz : dz * dz = 0 := by nlinarith [mul_self_nonneg dx, mul_self_nonneg dy, mul_self_nonneg dz]
      exact ⟨mul_self_eq_zero.mp hx, mul_self_eq_zero.mp hy, mul_self_eq_zero.mp hz⟩
    · rintro ⟨rfl, rfl, rfl⟩
      simp

theorem hello_loop_g : ∀ (fuel : Nat) (i : Int) (s : State), (hello_loop fuel i s).g = s.g
  | 0, _, _ => rfl
  | fuel + 1, i, s => by
    unfold hello_loop
    by_cases hi : i < s.g.nproc
    · rw [if_pos hi, hello_loop_g fuel]
      by_cases hr : i = s.g.rank <;> simp [hr]
    · rw [if_neg hi]

/-- C7. Nothing after the option loop assigns to `g`: `eprintf`,
    `dbg_printf_real`, `print_body`, every recorded runtime or timer call, the
    greeting loop and the whole part of `main` after the option loop return the
    state with `g` as it was, so the `g` that `main` ends with is the `g` the
    option loop left. -/
theorem C7_configuration_fixed :
    (∀ (s : State) (buf : List Char), (eprintf s buf).2.g = s.g) ∧
    (∀ (s : State) (buf : List Char), (dbg_printf_real s buf).2.g = s.g) ∧
    (∀ (α : Type) (f : α → List Char) (s : State) (b : body_t α), (print_body f s b).g = s.g) ∧
    (∀ (s : State) (e : Event), (emit s e).g = s.g) ∧
    (∀ (fuel : Nat) (i : Int) (s : State), (hello_loop fuel i s).g = s.g) ∧
    (∀ (elapsed : List Char) (s : State), (main_run elapsed s).g = s.g) ∧
    (∀ env : Env, (main env).1.g = (parse_options (main_startup env) env.opts).state.g) := by
  refine ⟨eprintf_g, dbg_printf_real_g, fun α f s b => ?_, emit_g, hello_loop_g,
    fun elapsed s => ?_, fun env => ?_⟩
  · simp [print_body]
  · rw [main_run_eq]
  · unfold main
    cases parse_options (main_startup env) env.opts with
    | exited s status => rfl
    | parsed s => simp only [Parse.state]; rw [main_run_eq]

theorem fmt_4d_length (v : Int) : 4 ≤ (fmt_4d v).length := by
  simp only [fmt_4d, List.length_append, List.length_replicate]
  omega

/-- C8 fails on the code. `dbg_printf_real` writes the text behind the rank tag
    `%4d: `, which is at least six bytes, and returns the length of the text
    without the tag: the returned value is at least six less than the number of
    bytes passed to `write`. For rank 0 and the text `hi` it writes the eight
    bytes `   0: hi` and returns 2. -/
theorem C8_dbg_printf_real_return :
    (∀ (s : State) (buf : List Char),
      (dbg_printf_real s buf).2.trace
        = s.trace ++ [Event.write STDOUT_FILENO (fmt_4d s.g.rank ++ [':', ' '] ++ buf)] ∧
      (dbg_printf_real s buf).1 = (buf.length : Int) ∧
      (dbg_printf_real s buf).1 + 6 ≤ ((fmt_4d s.g.rank ++ [':', ' '] ++ buf).length : Int)) ∧
    dbg_printf_real { g := { rank := 0, nproc := 1, n := 10000, nsteps := 10 }, trace := [] }
        ['h', 'i']
      = (2, { g := { rank := 0, nproc := 1, n := 10000, nsteps := 10 },
              trace := [Event.write STDOUT_FILENO [' ', ' ', ' ', '0', ':', ' ', 'h', 'i']] }) := by
  refine ⟨fun s buf => ⟨?_, ?_, ?_⟩, by decide⟩
  · rw [dbg_printf_real_eq]
    simp
  · rw [dbg_printf_real_eq]
  · rw [dbg_printf_real_eq]
    have := fmt_4d_length s.g.rank
    simp only [List.length_append, List.length_cons, List.length_nil]
    push_cast
    omega

/-- C9. In a run that does not meet `-h`, with a process count that is not
    negative, the process makes exactly `nproc + 1` barrier calls, whatever its
    rank and the parsed `n` and `nsteps`; so two processes of runs with the same
    process count make the same number of barrier calls. -/
theorem C9_barrier_count (env : Env) (h0 : 0 ≤ env.n_pes) (h : GetoptRet.opt_h ∉ env.opts) :
    (barrier_calls (main env).1.trace : Int) = env.n_pes + 1 ∧
    (main env).1.g.nproc = env.n_pes ∧
    (∀ env1 : Env, GetoptRet.opt_h ∉ env1.opts → env1.n_pes = env.n_pes →
      barrier_calls (main env1).1.trace = barrier_calls (main env).1.trace) := by
  refine ⟨?_, ?_, fun env1 h1 hp => ?_⟩
  · rw [main_no_h env h]
    simp only [barrier_calls_run_trace]
    push_cast
    omega
  · rw [main_no_h env h]
    rfl
  · rw [main_no_h env h, main_no_h env1 h1]
    simp [barrier_calls_run_trace, hp]

/-- C9 for process 1 of 4 on the arguments `-n 5 -t 3 -n 7`: five barrier calls. -/
theorem C9_barrier_count_witness :
    (0 : Int) ≤ run_n5_t3_n7.n_pes ∧ GetoptRet.opt_h ∉ run_n5_t3_n7.opts ∧
    (barrier_calls (main run_n5_t3_n7).1.trace : Int) = 4 + 1 :=
  ⟨by decide, by decide, (C9_barrier_count run_n5_t3_n7 (by decide) (by decide)).1⟩

theorem not_mem_written_eprintf_events (rank r p : Int) (buf : List Char)
    (hne : buf ≠ hello_line r p) :
    hello_line r p ∉ written (eprintf_events rank buf) := by
  rw [written_eprintf_events]
  by_cases h0 : rank = 0
  · simpa [h0] using fun h => hne h.symm
  · simp [h0]

theorem barrier_calls_replicate (k : Nat) :
    barrier_calls (List.replicate k Event.shmem_barrier_all) = k := by
  simp [barrier_calls]

/-- C10. In a run that does not meet `-h`, a process with `0 <= rank < nproc`
    writes its greeting line exactly once: the trace splits around that write
    into a part before it, which holds exactly `rank` barrier calls and no
    greeting line, and a part after it, which starts with the barrier call of the
    same iteration and holds no greeting line. A process whose rank is outside
    `[0, nproc)` writes no greeting line. -/
theorem C10_hello_once (env : Env) (h : GetoptRet.opt_h ∉ env.opts) :
    (0 ≤ env.my_pe ∧ env.my_pe < env.n_pes →
      ∃ pre post : List Event,
        (main env).1.trace
          = pre ++ Event.write STDOUT_FILENO (hello_line env.my_pe env.n_pes)
              :: Event.shmem_barrier_all :: post ∧
        (barrier_calls pre : Int) = env.my_pe ∧
        (∀ r p : Int, hello_line r p ∉ written pre) ∧
        (∀ r p : Int, hello_line r p ∉ written post)) ∧
    (¬ (0 ≤ env.my_pe ∧ env.my_pe < env.n_pes) →
      ∀ r p : Int, hello_line r p ∉ written (main env).1.trace) := by
  rw [main_no_h env h]
  constructor
  · rintro ⟨h0, h1⟩
    have hin := greeting_events_inside (parsed_config env) env.n_pes.toNat 0
      (by simpa [parsed_config] using h0) (by simp only [parsed_config]; omega)
    have hrank : (parsed_config env).rank = env.my_pe := rfl
    have hnproc : (parsed_config env).nproc = env.n_pes := rfl
    have hk : env.n_pes.toNat - (env.my_pe - 0).toNat
        = (env.n_pes.toNat - (env.my_pe - 0).toNat - 1) + 1 := by omega
    rw [hrank, hnproc, hk, List.replicate_succ] at hin
    refine ⟨[Event.shmem_init, Event.wc_tsc_calibrate]
        ++ (eprintf_events env.my_pe
              (banner_msg (parsed_config env).n env.n_pes (parsed_config env).nsteps)
        ++ ([Event.wc_init_timer, Event.wc_start_timer]
        ++ List.replicate (env.my_pe - 0).toNat Event.shmem_barrier_all)),
      List.replicate (env.n_pes.toNat - (env.my_pe - 0).toNat - 1) Event.shmem_barrier_all
        ++ ([Event.shmem_barrier_all, Event.wc_stop_timer]
        ++ (eprintf_events env.my_pe (time_msg env.elapsed) ++ [Event.shmem_finalize])),
      ?_, ?_, ?_, ?_⟩
    · simp only [run_trace, hin]
      simp
    · simp only [barrier_calls_append, barrier_calls_eprintf_events, barrier_calls_replicate]
      simp only [barrier_calls]
      simp
      omega
    · intro r p
      have := not_mem_written_eprintf_events env.my_pe r p _
        (hello_line_ne_banner_msg r p (parsed_config env).n env.n_pes (parsed_config env).nsteps)
      simpa [written] using this
    · intro r p
      have := not_mem_written_eprintf_events env.my_pe r p _ (hello_line_ne_time_msg r p env.elapsed)
      simpa [written] using this
  · intro hout r p
    have hrank : (parsed_config env).rank = env.my_pe := rfl
    have hev := greeting_events_outside (parsed_config env) env.n_pes.toNat 0
      (by rw [hrank]; omega)
    have h1 := not_mem_written_eprintf_events env.my_pe r p _
      (hello_line_ne_banner_msg r p (parsed_config env).n env.n_pes (parsed_config env).nsteps)
    have h2 := not_mem_written_eprintf_events env.my_pe r p _
      (hello_line_ne_time_msg r p env.elapsed)
    simp only [run_trace, hev]
    simp [written, h1, h2]

/-- C10 for process 1 of 4 on the arguments `-n 5 -t 3 -n 7`: one barrier call
    precedes the greeting line. -/
theorem C10_hello_once_witness :
    GetoptRet.opt_h ∉ run_n5_t3_n7.opts ∧
    ∃ pre post : List Event,
      (main run_n5_t3_n7).1.trace
        = pre ++ Event.write STDOUT_FILENO (hello_line 1 4)
            :: Event.shmem_barrier_all :: post ∧
      (barrier_calls pre : Int) = 1 ∧
      (∀ r p : Int, hello_line r p ∉ written pre) ∧
      (∀ r p : Int, hello_line r p ∉ written post) :=
  ⟨by decide, (C10_hello_once run_n5_t3_n7 (by decide)).1 ⟨by decide, by decide⟩⟩

end Lab3
